import Mathlib

/-!
Shallow embedding of `BuildGenesis` from `vms/avm/static/static_service.go`
together with the data model it operates on.

Everything defined directly from the source keeps the source's names.
External collaborators of the file (the `vmargs` argument types, the
`formatting` text codec, the bech32 address resolver, the binary codec and
the `Sort` methods of `internalavm` / `secp256k1fx`) are not under `src/`;
they are modelled from the specification, and each such definition carries a
doc comment starting with "Modelled from the spec:".
-/

namespace AvmStatic

/-- Modelled from the spec: the error taxonomy of §7 (the Go code returns
wrapped `error` values; we keep one constructor per kind so that the
distinguished `errUnknownAssetType` value is distinguishable). -/
inductive Err where
  | memoDecode (msg : String)
  | malformedRecord (msg : String)
  | addressFormat (msg : String)
  | unknownAssetType
  | encodingError (msg : String)
  deriving DecidableEq, Repr

/-- Modelled from the spec: a fixed-width 20-byte binary address identifier
(`ids.ShortID`); bytes are modelled as `Nat`s. -/
abbrev Addr : Type := { l : List Nat // l.length = 20 }

/-- Modelled from the spec: a piece of transport-encoded text. The reversible
byte-to-text transport encoding is opaque, so we model an encoded string as
the pair of the encoding tag it was produced with and the payload bytes. -/
abbrev Text : Type := Nat × List Nat

/-- Modelled from the spec: `vmargs.Holder`, the `{address, amount}` shape of
a fixedCap distribution record. -/
structure Holder where
  Address : String
  Amount : Nat
  deriving DecidableEq, Repr

/-- Modelled from the spec: `vmargs.Owners`, the `{minterAddresses}` shape of
a variableCap distribution record. -/
structure Owners where
  Minters : List String
  deriving DecidableEq, Repr

/-- Modelled from the spec: a loosely-typed distribution record
(`interface{}` holding decoded JSON). A record either carries the holder
shape, carries the owners shape, or fails JSON re-marshalling into either
target shape (the `MalformedRecordError` case). -/
inductive RawRecord where
  | holderRec (h : Holder)
  | ownersRec (o : Owners)
  | malformed (msg : String)
  deriving DecidableEq, Repr

/-- Modelled from the spec: reinterpreting a raw record as a `Holder` via
JSON marshal/unmarshal. Go's JSON decoder ignores unknown fields and leaves
missing fields at their zero values, so an owners-shaped record yields the
zero `Holder`; a malformed record fails. -/
def asHolder : RawRecord → Except Err Holder
  | .holderRec h => .ok h
  | .ownersRec _ => .ok { Address := "", Amount := 0 }
  | .malformed m => .error (.malformedRecord m)

/-- Modelled from the spec: reinterpreting a raw record as `Owners`; an
holder-shaped record yields the zero `Owners` (Go JSON zero values), a
malformed record fails. -/
def asOwners : RawRecord → Except Err Owners
  | .ownersRec o => .ok o
  | .holderRec _ => .ok { Minters := [] }
  | .malformed m => .error (.malformedRecord m)

/-- Modelled from the spec: `vmargs.AssetDefinition`. The `initialState`
mapping from asset-kind tag to record list is materialised as an association
list so that iteration order is explicit. `Denomination` is a caller-supplied
unsigned integer; `Memo` is transport-encoded text. -/
structure AssetDefinition where
  Name : String
  Symbol : String
  Denomination : Nat
  InitialState : List (String × List RawRecord)
  Memo : Text
  deriving DecidableEq, Repr

/-- Modelled from the spec: `vmargs.BuildGenesisArgs`; `genesisData` is the
alias-to-definition mapping materialised in iteration order. -/
structure BuildGenesisArgs where
  NetworkID : Nat
  GenesisData : List (String × AssetDefinition)
  Encoding : Nat
  deriving DecidableEq, Repr

/-- Modelled from the spec: `vmargs.BuildGenesisReply`. Fields start unset
(`none`), mirroring the Go zero-valued reply that the RPC layer hands in. -/
structure BuildGenesisReply where
  Bytes : Option Text
  Encoding : Option Nat
  deriving DecidableEq, Repr

/-- Reply record before `BuildGenesis` touches it. -/
def zeroReply : BuildGenesisReply := { Bytes := none, Encoding := none }

/-- Typed output records: `secp256k1fx.TransferOutput` (amount, threshold,
owner addresses) and `secp256k1fx.MintOutput` (threshold, owner addresses),
with the `OutputOwners` fields flattened in. -/
inductive Output where
  | TransferOutput (Amt : Nat) (Threshold : Nat) (Addrs : List Addr)
  | MintOutput (Threshold : Nat) (Addrs : List Addr)
  deriving DecidableEq, Repr

/-- Owner address list of an output. -/
def Output.addrs : Output → List Addr
  | .TransferOutput _ _ a => a
  | .MintOutput _ a => a

/-- Embedding of `internalavm.InitialState`: a feature-set (fx) format tag
and the accumulated outputs. -/
structure InitialState where
  FxID : Nat
  Outs : List Output
  deriving DecidableEq, Repr

/-- Modelled from the spec: `ids.Empty`, the all-zero sentinel blockchain ID. -/
def emptyID : List Nat := List.replicate 32 0

/-- Embedding of `internalavm.GenesisAsset` with its nested
`CreateAssetTx`/`BaseTx` fields flattened. -/
structure GenesisAsset where
  Alias : String
  NetworkID : Nat
  BlockchainID : List Nat
  Memo : List Nat
  Name : String
  Symbol : String
  Denomination : Nat
  States : List InitialState
  deriving DecidableEq, Repr

/-- Embedding of `internalavm.Genesis`. -/
structure Genesis where
  Txs : List GenesisAsset
  deriving DecidableEq, Repr

/-! ### Canonical binary encoding (the modelled codec)

Modelled from the spec: the binary codec is an opaque deterministic
serializer keyed by numeric record-type tags; fields are concatenated with
length prefixes so that encoding is injective (a canonical encoding
determines its object). Bytes are `Nat`s. -/

/-- Length-prefix wrapper used by the modelled codec. -/
def withLen (l : List Nat) : List Nat := l.length :: l

/-- Modelled from the spec: canonical encoding of a string field. -/
def encStr (s : String) : List Nat := withLen (s.data.map Char.toNat)

/-- Modelled from the spec: canonical encoding of an address list; addresses
are fixed-width so a count prefix suffices. -/
def encAddrs (a : List Addr) : List Nat := a.length :: (a.map Subtype.val).flatten

/-- Modelled from the spec: canonical encoding of an output record, tagged by
its codec registration index (`MintOutput` is tag 6, `TransferOutput` tag 7,
their registration order in `BuildGenesis`). -/
def encOutput : Output → List Nat
  | .TransferOutput amt t a => 7 :: amt :: t :: encAddrs a
  | .MintOutput t a => 6 :: t :: encAddrs a

/-- Modelled from the spec: canonical encoding of an output list. -/
def encOuts (l : List Output) : List Nat :=
  l.length :: (l.map (fun o => withLen (encOutput o))).flatten

/-- Modelled from the spec: canonical encoding of an initial-state group. -/
def encInitialState (s : InitialState) : List Nat := s.FxID :: encOuts s.Outs

/-- Modelled from the spec: canonical encoding of a state list. -/
def encStates (l : List InitialState) : List Nat :=
  l.length :: (l.map (fun s => withLen (encInitialState s))).flatten

/-- Modelled from the spec: canonical encoding of a `GenesisAsset`. -/
def encGenesisAsset (a : GenesisAsset) : List Nat :=
  withLen (encStr a.Alias) ++ withLen [a.NetworkID] ++ withLen a.BlockchainID ++
    withLen a.Memo ++ withLen (encStr a.Name) ++ withLen (encStr a.Symbol) ++
    withLen [a.Denomination] ++ withLen (encStates a.States)

/-- Modelled from the spec: the codec version registered for the genesis
codec (`codecVersion = uint16(0)` in the source). -/
def codecVersion : Nat := 0

/-- Modelled from the spec: `manager.Marshal(codecVersion, &g)` — versioned
encoding of the whole genesis, the version embedded as a format prefix. -/
def marshalGenesis (g : Genesis) : List Nat :=
  codecVersion :: g.Txs.length :: (g.Txs.map (fun a => withLen (encGenesisAsset a))).flatten

/-! ### Canonical ordering -/

/-- Modelled from the spec: ascending binary-value order on addresses
(lexicographic on the fixed-width byte strings). -/
def addrLe (a b : Addr) : Prop := a.val ≤ b.val

instance : DecidableRel addrLe := fun a b => inferInstanceAs (Decidable (a.val ≤ b.val))

/-- Modelled from the spec: order on outputs by their canonical binary
encoding. -/
def outLe (a b : Output) : Prop := encOutput a ≤ encOutput b

instance : DecidableRel outLe := fun a b => inferInstanceAs (Decidable (encOutput a ≤ encOutput b))

/-- Modelled from the spec: order on initial-state groups by canonical
encoding. -/
def stateLe (a b : InitialState) : Prop := encInitialState a ≤ encInitialState b

instance : DecidableRel stateLe :=
  fun a b => inferInstanceAs (Decidable (encInitialState a ≤ encInitialState b))

/-- Modelled from the spec: order on genesis asset transactions by canonical
encoding. -/
def assetLe (a b : GenesisAsset) : Prop := encGenesisAsset a ≤ encGenesisAsset b

instance : DecidableRel assetLe :=
  fun a b => inferInstanceAs (Decidable (encGenesisAsset a ≤ encGenesisAsset b))

/-- Modelled from the spec: `out.Sort()` on a `MintOutput` — stable sort of
the owner addresses ascending by binary value. -/
def sortAddrs (l : List Addr) : List Addr := List.insertionSort addrLe l

/-- Modelled from the spec: `initialState.Sort(manager)` — stable sort of the
accumulated outputs by canonical encoding. -/
def sortOuts (l : List Output) : List Output := List.insertionSort outLe l

/-- Modelled from the spec: `asset.Sort()` — stable sort of the state groups
by canonical encoding. -/
def sortStates (l : List InitialState) : List InitialState := List.insertionSort stateLe l

/-- Modelled from the spec: `g.Sort()` — stable sort of the genesis asset
transactions by canonical encoding. -/
def sortAssets (l : List GenesisAsset) : List GenesisAsset := List.insertionSort assetLe l

/-! ### Transport encoding -/

/-- Modelled from the spec: `formatting.Encode(encoding, b)` — the reversible
byte-to-text transport encoding; encodings 0 and 1 are the valid enum values
(hex and the base-checksum encoding), anything else is an encoding error. -/
def encodeFmt (e : Nat) (b : List Nat) : Except Err Text :=
  if e ≤ 1 then .ok (e, b) else .error (.encodingError "invalid encoding")

/-- Modelled from the spec: `formatting.Decode(encoding, s)` — decoding text
under a declared encoding; fails on an invalid enum value or when the text is
not valid under that encoding. -/
def decodeFmt (e : Nat) (t : Text) : Except Err (List Nat) :=
  if e ≤ 1 ∧ t.1 = e then .ok t.2 else .error (.memoDecode "invalid encoding")

/-! ### The pipeline of `BuildGenesis` -/

/-- Sequential fallible map: the shape of every per-element loop in
`BuildGenesis` (first error aborts). -/
def mapE (f : α → Except Err β) : List α → Except Err (List β)
  | [] => .ok []
  | a :: as => do
    let b ← f a
    let bs ← mapE f as
    pure (b :: bs)

/-- Body of the fixedCap loop (lines 75–99): reinterpret the record as a
holder, resolve its address, emit one `TransferOutput` with that single
address, the record's amount truncated to 64 bits, and threshold 1. -/
def fixedCapOut (resolve : String → Except Err Addr) (r : RawRecord) : Except Err Output := do
  let holder ← asHolder r
  let addr ← resolve holder.Address
  pure (.TransferOutput (holder.Amount % 2 ^ 64) 1 [addr])

/-- Body of the variableCap loop (lines 101–130): reinterpret the record as
owners, resolve every minter address in order, emit one `MintOutput` with
threshold 1 and the resolved addresses sorted ascending. -/
def variableCapOut (resolve : String → Except Err Addr) (r : RawRecord) : Except Err Output := do
  let owners ← asOwners r
  let addrs ← mapE resolve owners.Minters
  pure (.MintOutput 1 (sortAddrs addrs))

/-- Dispatch on the asset-kind tag (the `switch assetType` at line 73); an
unknown tag is the distinguished `errUnknownAssetType`. -/
def processTag (resolve : String → Except Err Addr) (tag : String) (records : List RawRecord) :
    Except Err (List Output) :=
  if tag = "fixedCap" then mapE (fixedCapOut resolve) records
  else if tag = "variableCap" then mapE (variableCapOut resolve) records
  else .error .unknownAssetType

/-- The loop over the initialState mapping (line 72): outputs of every tag
are appended into the one accumulating `initialState.Outs`. -/
def processInitialState (resolve : String → Except Err Addr) :
    List (String × List RawRecord) → Except Err (List Output)
  | [] => .ok []
  | (tag, records) :: rest => do
    let outs ← processTag resolve tag records
    let more ← processInitialState resolve rest
    pure (outs ++ more)

/-- The base transaction of lines 55–67: network ID truncated to 32 bits,
empty blockchain ID, decoded memo, and the denomination truncated to one
byte (`byte(assetDefinition.Denomination)`), with no states yet. -/
def baseAsset (networkID : Nat) (aliasName : String) (d : AssetDefinition)
    (memoBytes : List Nat) : GenesisAsset :=
  { Alias := aliasName, NetworkID := networkID % 2 ^ 32, BlockchainID := emptyID,
    Memo := memoBytes, Name := d.Name, Symbol := d.Symbol,
    Denomination := d.Denomination % 256, States := [] }

/-- Construction of one `GenesisAsset` (lines 50–138): decode the memo under
the request encoding, build the base transaction, and, only if the definition
declares any initial-state entries, accumulate all outputs into a single
state group with `FxID` 0, sorted canonically. -/
def buildAsset (resolve : String → Except Err Addr) (encoding networkID : Nat)
    (aliasName : String) (d : AssetDefinition) : Except Err GenesisAsset := do
  let assetMemo ← decodeFmt encoding d.Memo
  let base : GenesisAsset := baseAsset networkID aliasName d assetMemo
  if d.InitialState.length > 0 then do
    let outs ← processInitialState resolve d.InitialState
    pure { base with States := sortStates [{ FxID := 0, Outs := sortOuts outs }] }
  else
    pure base

/-- The loop over `args.GenesisData` (line 49), accumulating `g.Txs`. -/
def buildTxs (resolve : String → Except Err Addr) (encoding networkID : Nat) :
    List (String × AssetDefinition) → Except Err (List GenesisAsset)
  | [] => .ok []
  | (aliasName, d) :: rest => do
    let a ← buildAsset resolve encoding networkID aliasName d
    let more ← buildTxs resolve encoding networkID rest
    pure (a :: more)

/-- Embedding of `BuildGenesis`. The bech32 address resolver
(`formatting.ParseBech32` followed by `ids.ToShortID`) is an external
collaborator and is passed as the parameter `resolve`. The reply record is
threaded explicitly to mirror the Go in-place mutation: on any error before
the final transport encoding the reply is untouched; if the transport
encoding itself fails, `reply.Bytes` receives the zero string (`none`); on
success both `Bytes` and `Encoding` are set. -/
def BuildGenesis (resolve : String → Except Err Addr) (args : BuildGenesisArgs)
    (reply : BuildGenesisReply) : Except Err Unit × BuildGenesisReply :=
  match buildTxs resolve args.Encoding args.NetworkID args.GenesisData with
  | .error e => (.error e, reply)
  | .ok txs =>
    let g : Genesis := { Txs := sortAssets txs }
    let b := marshalGenesis g
    match encodeFmt args.Encoding b with
    | .error e => (.error e, { reply with Bytes := none })
    | .ok t => (.ok (), { Bytes := some t, Encoding := some args.Encoding })

/-- Modelled from the spec: a concrete instance of the address resolver, used
to evaluate the theorems on closed inputs. The textual form is taken to spell
one byte per character; it resolves exactly when it decodes to 20 bytes,
otherwise it is an `AddressFormatError`. -/
def specResolve (s : String) : Except Err Addr :=
  let bytes := s.data.map Char.toNat
  if h : bytes.length = 20 then .ok ⟨bytes, h⟩ else .error (.addressFormat s)

/-! ### Concrete sample inputs used to evaluate the theorems on closed data -/

def addrA : String := "aaaaaaaaaaaaaaaaaaaa"

def addrB : String := "bbbbbbbbbbbbbbbbbbbb"

def addrC : String := "cccccccccccccccccccc"

def addrBad : String := "xyz"

def resolvedA : Addr := ⟨List.replicate 20 97, by simp⟩

def resolvedB : Addr := ⟨List.replicate 20 98, by simp⟩

def resolvedC : Addr := ⟨List.replicate 20 99, by simp⟩

def sampleHolderA : RawRecord := .holderRec { Address := addrA, Amount := 5 }

def sampleHolderB : RawRecord := .holderRec { Address := addrB, Amount := 6 }

def sampleHolderBad : RawRecord := .holderRec { Address := addrBad, Amount := 7 }

def emptyMemo : Text := (0, [])

def c1d1 : AssetDefinition :=
  { Name := "n1", Symbol := "s1", Denomination := 1,
    InitialState := [("fixedCap", [sampleHolderA, sampleHolderB])], Memo := emptyMemo }

def c1d1' : AssetDefinition :=
  { c1d1 with InitialState := [("fixedCap", [sampleHolderB, sampleHolderA])] }

def c1d2 : AssetDefinition :=
  { Name := "n2", Symbol := "s2", Denomination := 2, InitialState := [], Memo := emptyMemo }

def c1args : BuildGenesisArgs :=
  { NetworkID := 1, GenesisData := [("alpha", c1d1), ("beta", c1d2)], Encoding := 0 }

def c1args' : BuildGenesisArgs :=
  { NetworkID := 1, GenesisData := [("beta", c1d2), ("alpha", c1d1')], Encoding := 0 }

def c2records : List RawRecord := [.ownersRec { Minters := [addrB, addrA, addrC] }]

def c3d : AssetDefinition :=
  { Name := "n3", Symbol := "s3", Denomination := 0,
    InitialState := [("fixedCap", [.malformed "oops"])], Memo := emptyMemo }

def c3args : BuildGenesisArgs :=
  { NetworkID := 2, GenesisData := [("gamma", c3d)], Encoding := 0 }

def c4args : BuildGenesisArgs :=
  { NetworkID := 5, GenesisData := [("gold", c1d2)], Encoding := 0 }

def c5d : AssetDefinition :=
  { Name := "n5", Symbol := "s5", Denomination := 0,
    InitialState := [("unknown", [])], Memo := emptyMemo }

def c5args : BuildGenesisArgs :=
  { NetworkID := 3, GenesisData := [("delta", c5d)], Encoding := 0 }

def c6d : AssetDefinition :=
  { Name := "n6", Symbol := "s6", Denomination := 0,
    InitialState := [("fixedCap", [sampleHolderBad])], Memo := emptyMemo }

def c6args : BuildGenesisArgs :=
  { NetworkID := 4, GenesisData := [("epsilon", c6d)], Encoding := 0 }

def c7d : AssetDefinition :=
  { Name := "n7", Symbol := "s7", Denomination := 0,
    InitialState := [("variableCap", [.ownersRec { Minters := [] }])],
    Memo := emptyMemo }

def c7args : BuildGenesisArgs :=
  { NetworkID := 5, GenesisData := [("zeta", c7d)], Encoding := 0 }

def c8d : AssetDefinition :=
  { Name := "n8", Symbol := "s8", Denomination := 0, InitialState := [],
    Memo := (1, [2]) }

def c8args : BuildGenesisArgs :=
  { NetworkID := 6, GenesisData := [("eta", c8d)], Encoding := 0 }

def c9d : AssetDefinition :=
  { Name := "n9", Symbol := "s9", Denomination := 300, InitialState := [], Memo := emptyMemo }

def c10d : AssetDefinition :=
  { Name := "n10", Symbol := "s10", Denomination := 0, InitialState := [], Memo := (1, [9]) }

def c10args : BuildGenesisArgs :=
  { NetworkID := 7, GenesisData := [("theta", c10d)], Encoding := 0 }

/-! ### Logical-content equivalence of inputs

Two requests have the same logical content when they differ only in the
iteration order of the `genesisData` mapping, of the `initialState` mapping,
or of the record lists inside it. -/

/-- Entries of an initialState mapping with the same tag and the same
records up to order. -/
def TagEquiv (p q : String × List RawRecord) : Prop :=
  p.1 = q.1 ∧ List.Perm p.2 q.2

/-- InitialState mappings with the same logical content: the entries match
pairwise up to permutation of each record list, and the entries themselves
are permuted. -/
def InitEquiv (l l' : List (String × List RawRecord)) : Prop :=
  ∃ m, List.Forall₂ TagEquiv l m ∧ List.Perm m l'

/-- Asset definitions with the same logical content. -/
def DefEquiv (d d' : AssetDefinition) : Prop :=
  d.Name = d'.Name ∧ d.Symbol = d'.Symbol ∧ d.Denomination = d'.Denomination ∧
    d.Memo = d'.Memo ∧ InitEquiv d.InitialState d'.InitialState

/-- GenesisData entries with the same alias and equivalent definitions. -/
def EntryEquiv (p q : String × AssetDefinition) : Prop :=
  p.1 = q.1 ∧ DefEquiv p.2 q.2

/-- Requests with the same logical content. -/
def ArgsEquiv (a a' : BuildGenesisArgs) : Prop :=
  a.NetworkID = a'.NetworkID ∧ a.Encoding = a'.Encoding ∧
    ∃ m, List.Forall₂ EntryEquiv a.GenesisData m ∧ List.Perm m a'.GenesisData

/-! ### Injectivity of the canonical encoding -/

theorem withLen_append_inj {a b r₁ r₂ : List Nat}
    (h : withLen a ++ r₁ = withLen b ++ r₂) : a = b ∧ r₁ = r₂ := by
  simp only [withLen, List.cons_append, List.cons.injEq] at h
  obtain ⟨hlen, htail⟩ := h
  exact List.append_inj htail hlen

theorem withLen_inj {a b : List Nat} (h : withLen a = withLen b) : a = b := by
  have h' : withLen a ++ [] = withLen b ++ [] := by simpa using h
  exact (withLen_append_inj h').1

theorem char_toNat_injective : Function.Injective Char.toNat := by
  intro a b h
  exact Char.ext (UInt32.ext h)

theorem encStr_inj {s t : String} (h : encStr s = encStr t) : s = t := by
  have h1 : s.data.map Char.toNat = t.data.map Char.toNat := withLen_inj h
  have h2 : s.data = t.data :=
    (List.map_injective_iff.mpr char_toNat_injective) h1
  exact String.ext h2

theorem encAddrs_inj : ∀ {a b : List Addr}, encAddrs a = encAddrs b → a = b := by
  have aux : ∀ (a b : List Addr), a.length = b.length →
      (a.map Subtype.val).flatten = (b.map Subtype.val).flatten → a = b := by
    intro a
    induction a with
    | nil =>
      intro b hlen _
      exact (List.length_eq_zero.mp hlen.symm).symm
    | cons x xs ih =>
      intro b hlen hf
      cases b with
      | nil => simp at hlen
      | cons y ys =>
        simp only [List.map_cons, List.flatten_cons] at hf
        have hxy := List.append_inj hf (x.prop.trans y.prop.symm)
        have hx : x = y := Subtype.ext hxy.1
        have hs : xs = ys := ih ys (by simpa using hlen) hxy.2
        rw [hx, hs]
  intro a b h
  simp only [encAddrs, List.cons.injEq] at h
  exact aux a b h.1 h.2

theorem encOutput_inj : ∀ {a b : Output}, encOutput a = encOutput b → a = b := by
  intro a b h
  cases a <;> cases b <;> simp only [encOutput, List.cons.injEq] at h
  · obtain ⟨_, h1, h2, h3⟩ := h
    simp_all [encAddrs_inj h3]
  · omega
  · omega
  · obtain ⟨_, h1, h2⟩ := h
    simp_all [encAddrs_inj h2]

theorem flatten_withLen_inj {α : Type} {f : α → List Nat}
    (hf : ∀ {x y : α}, f x = f y → x = y) :
    ∀ (a b : List α), a.length = b.length →
      (a.map (fun x => withLen (f x))).flatten = (b.map (fun x => withLen (f x))).flatten →
      a = b := by
  intro a
  induction a with
  | nil =>
    intro b hlen _
    exact (List.length_eq_zero.mp hlen.symm).symm
  | cons x xs ih =>
    intro b hlen hflat
    cases b with
    | nil => simp at hlen
    | cons y ys =>
      simp only [List.map_cons, List.flatten_cons] at hflat
      obtain ⟨h1, h2⟩ := withLen_append_inj hflat
      rw [hf h1, ih ys (by simpa using hlen) h2]

theorem encOuts_inj {a b : List Output} (h : encOuts a = encOuts b) : a = b := by
  simp only [encOuts, List.cons.injEq] at h
  exact flatten_withLen_inj (fun hxy => encOutput_inj hxy) a b h.1 h.2

theorem encInitialState_inj {a b : InitialState}
    (h : encInitialState a = encInitialState b) : a = b := by
  simp only [encInitialState, List.cons.injEq] at h
  cases a; cases b
  simp only [InitialState.mk.injEq]
  exact ⟨h.1, encOuts_inj h.2⟩

theorem encStates_inj {a b : List InitialState} (h : encStates a = encStates b) : a = b := by
  simp only [encStates, List.cons.injEq] at h
  exact flatten_withLen_inj (fun hxy => encInitialState_inj hxy) a b h.1 h.2

theorem encGenesisAsset_inj {a b : GenesisAsset}
    (h : encGenesisAsset a = encGenesisAsset b) : a = b := by
  simp only [encGenesisAsset, List.append_assoc] at h
  obtain ⟨h1, h⟩ := withLen_append_inj h
  obtain ⟨h2, h⟩ := withLen_append_inj h
  obtain ⟨h3, h⟩ := withLen_append_inj h
  obtain ⟨h4, h⟩ := withLen_append_inj h
  obtain ⟨h5, h⟩ := withLen_append_inj h
  obtain ⟨h6, h⟩ := withLen_append_inj h
  obtain ⟨h7, h⟩ := withLen_append_inj h
  have h8 := withLen_inj h
  cases a; cases b
  simp only [GenesisAsset.mk.injEq]
  refine ⟨encStr_inj h1, ?_, h3, h4, encStr_inj h5, encStr_inj h6, ?_, encStates_inj h8⟩
  · simpa using h2
  · simpa using h7

/-! ### Facts about the canonical sorts -/

instance : IsTotal Output outLe := ⟨fun a b => le_total (encOutput a) (encOutput b)⟩

instance : IsTrans Output outLe := ⟨fun _ _ _ h1 h2 => le_trans h1 h2⟩

instance : IsAntisymm Output outLe :=
  ⟨fun _ _ h1 h2 => encOutput_inj (le_antisymm h1 h2)⟩

instance : IsTotal InitialState stateLe :=
  ⟨fun a b => le_total (encInitialState a) (encInitialState b)⟩

instance : IsTrans InitialState stateLe := ⟨fun _ _ _ h1 h2 => le_trans h1 h2⟩

instance : IsAntisymm InitialState stateLe :=
  ⟨fun _ _ h1 h2 => encInitialState_inj (le_antisymm h1 h2)⟩

instance : IsTotal GenesisAsset assetLe :=
  ⟨fun a b => le_total (encGenesisAsset a) (encGenesisAsset b)⟩

instance : IsTrans GenesisAsset assetLe := ⟨fun _ _ _ h1 h2 => le_trans h1 h2⟩

instance : IsAntisymm GenesisAsset assetLe :=
  ⟨fun _ _ h1 h2 => encGenesisAsset_inj (le_antisymm h1 h2)⟩

instance : IsTotal Addr addrLe := ⟨fun a b => le_total a.val b.val⟩

instance : IsTrans Addr addrLe := ⟨fun _ _ _ h1 h2 => le_trans h1 h2⟩

theorem sortAddrs_perm (l : List Addr) : List.Perm (sortAddrs l) l :=
  List.perm_insertionSort addrLe l

theorem sortAddrs_sorted (l : List Addr) : List.Sorted addrLe (sortAddrs l) :=
  List.sorted_insertionSort addrLe l

theorem sortOuts_perm (l : List Output) : List.Perm (sortOuts l) l :=
  List.perm_insertionSort outLe l

theorem sortOuts_eq_of_perm {l l' : List Output} (h : List.Perm l l') :
    sortOuts l = sortOuts l' :=
  List.eq_of_perm_of_sorted
    (((List.perm_insertionSort outLe l).trans h).trans
      (List.perm_insertionSort outLe l').symm)
    (List.sorted_insertionSort outLe l) (List.sorted_insertionSort outLe l')

theorem sortAssets_eq_of_perm {l l' : List GenesisAsset} (h : List.Perm l l') :
    sortAssets l = sortAssets l' :=
  List.eq_of_perm_of_sorted
    (((List.perm_insertionSort assetLe l).trans h).trans
      (List.perm_insertionSort assetLe l').symm)
    (List.sorted_insertionSort assetLe l) (List.sorted_insertionSort assetLe l')

/-! ### Computation rules for the fallible loops -/

theorem exceptBind_ok {α β : Type} (a : α) (k : α → Except Err β) :
    (Except.ok a : Except Err α) >>= k = k a := rfl

theorem exceptBind_error {α β : Type} (e : Err) (k : α → Except Err β) :
    (Except.error e : Except Err α) >>= k = Except.error e := rfl

theorem exceptPure_eq {α : Type} (a : α) : (pure a : Except Err α) = Except.ok a := rfl

theorem mapE_cons {α β : Type} (f : α → Except Err β) (a : α) (as : List α) :
    mapE f (a :: as) =
      f a >>= fun b => mapE f as >>= fun bs => pure (b :: bs) := rfl

theorem mapE_ok_iff {α β : Type} {f : α → Except Err β} :
    ∀ {l : List α} {bs : List β},
      mapE f l = .ok bs ↔ List.Forall₂ (fun a b => f a = .ok b) l bs := by
  intro l
  induction l with
  | nil =>
    intro bs
    constructor
    · intro h
      obtain rfl : ([] : List β) = bs := by simpa [mapE] using h
      exact List.Forall₂.nil
    · intro h
      cases h
      rfl
  | cons a as ih =>
    intro bs
    constructor
    · intro h
      rw [mapE_cons] at h
      cases hfa : f a with
      | error e => rw [hfa, exceptBind_error] at h; simp at h
      | ok b =>
        rw [hfa, exceptBind_ok] at h
        cases hmas : mapE f as with
        | error e => rw [hmas, exceptBind_error] at h; simp at h
        | ok cs =>
          rw [hmas, exceptBind_ok, exceptPure_eq] at h
          obtain rfl : b :: cs = bs := by simpa using h
          exact List.Forall₂.cons hfa (ih.mp hmas)
    · intro h
      cases h with
      | cons hab htail =>
        rw [mapE_cons, hab, exceptBind_ok, ih.mpr htail, exceptBind_ok]
        rfl

theorem mapE_error_of_mem {α β : Type} {f : α → Except Err β} {l : List α} {a : α} {e : Err}
    (hmem : a ∈ l) (herr : f a = .error e) : ∃ e', mapE f l = .error e' := by
  induction l with
  | nil => cases hmem
  | cons x xs ih =>
    cases hfx : f x with
    | error e0 => exact ⟨e0, by rw [mapE_cons, hfx, exceptBind_error]⟩
    | ok b =>
      rcases List.mem_cons.mp hmem with rfl | hmem'
      · rw [hfx] at herr; simp at herr
      · obtain ⟨e', he'⟩ := ih hmem'
        exact ⟨e', by rw [mapE_cons, hfx, exceptBind_ok, he', exceptBind_error]⟩

theorem mapE_perm {α β : Type} {f : α → Except Err β} {l l' : List α} (hp : List.Perm l l') :
    ∀ {bs : List β}, mapE f l = .ok bs →
      ∃ bs', mapE f l' = .ok bs' ∧ List.Perm bs bs' := by
  induction hp with
  | nil =>
    intro bs h
    exact ⟨bs, h, List.Perm.refl bs⟩
  | @cons x l₁ l₂ hp ih =>
    intro bs h
    rw [mapE_cons] at h
    cases hfx : f x with
    | error e => rw [hfx, exceptBind_error] at h; simp at h
    | ok b =>
      rw [hfx, exceptBind_ok] at h
      cases hm : mapE f l₁ with
      | error e => rw [hm, exceptBind_error] at h; simp at h
      | ok cs =>
        rw [hm, exceptBind_ok, exceptPure_eq] at h
        obtain rfl : b :: cs = bs := by simpa using h
        obtain ⟨cs', hcs', hperm⟩ := ih hm
        exact ⟨b :: cs', by rw [mapE_cons, hfx, exceptBind_ok, hcs', exceptBind_ok,
          exceptPure_eq], List.Perm.cons b hperm⟩
  | swap x y l =>
    intro bs h
    rw [mapE_cons] at h
    cases hfy : f y with
    | error e => rw [hfy, exceptBind_error] at h; simp at h
    | ok by' =>
      rw [hfy, exceptBind_ok] at h
      rw [mapE_cons] at h
      cases hfx : f x with
      | error e => rw [hfx, exceptBind_error, exceptBind_error] at h; simp at h
      | ok bx =>
        rw [hfx, exceptBind_ok] at h
        cases hm : mapE f l with
        | error e => rw [hm, exceptBind_error, exceptBind_error] at h; simp at h
        | ok cs =>
          rw [hm, exceptBind_ok, exceptPure_eq] at h
          obtain rfl : by' :: bx :: cs = bs := by simpa using h
          refine ⟨bx :: by' :: cs, ?_, List.Perm.swap bx by' cs⟩
          rw [mapE_cons, hfx, exceptBind_ok, mapE_cons, hfy, exceptBind_ok, hm,
            exceptBind_ok]
          rfl
  | trans hp₁ hp₂ ih₁ ih₂ =>
    intro bs h
    obtain ⟨bs₁, h₁, hperm₁⟩ := ih₁ h
    obtain ⟨bs₂, h₂, hperm₂⟩ := ih₂ h₁
    exact ⟨bs₂, h₂, hperm₁.trans hperm₂⟩

theorem perm_append_swap {α : Type} (a b c : List α) :
    List.Perm (a ++ (b ++ c)) (b ++ (a ++ c)) := by
  rw [← List.append_assoc, ← List.append_assoc]
  exact List.Perm.append_right c List.perm_append_comm

/-! ### Facts about the initial-state builder -/

theorem processInitialState_cons (resolve : String → Except Err Addr) (tag : String)
    (records : List RawRecord) (rest : List (String × List RawRecord)) :
    processInitialState resolve ((tag, records) :: rest) =
      processTag resolve tag records >>= fun outs =>
        processInitialState resolve rest >>= fun more => pure (outs ++ more) := rfl

theorem processTag_fixedCap (resolve : String → Except Err Addr) (records : List RawRecord) :
    processTag resolve "fixedCap" records = mapE (fixedCapOut resolve) records := rfl

theorem processTag_variableCap (resolve : String → Except Err Addr) (records : List RawRecord) :
    processTag resolve "variableCap" records = mapE (variableCapOut resolve) records := rfl

theorem processTag_unknown {resolve : String → Except Err Addr} {tag : String}
    (h1 : tag ≠ "fixedCap") (h2 : tag ≠ "variableCap") (records : List RawRecord) :
    processTag resolve tag records = .error .unknownAssetType := by
  simp only [processTag, if_neg h1, if_neg h2]

theorem processTag_perm {resolve : String → Except Err Addr} {tag : String}
    {r r' : List RawRecord} (hp : List.Perm r r') {os : List Output}
    (h : processTag resolve tag r = .ok os) :
    ∃ os', processTag resolve tag r' = .ok os' ∧ List.Perm os os' := by
  by_cases h1 : tag = "fixedCap"
  · simp only [processTag, if_pos h1] at h ⊢
    exact mapE_perm hp h
  · by_cases h2 : tag = "variableCap"
    · simp only [processTag, if_neg h1, if_pos h2] at h ⊢
      exact mapE_perm hp h
    · rw [processTag_unknown h1 h2] at h
      simp at h

theorem processInitialState_ok_mem {resolve : String → Except Err Addr} :
    ∀ {l : List (String × List RawRecord)} {outs : List Output},
      processInitialState resolve l = .ok outs →
      ∀ {tag : String} {records : List RawRecord}, (tag, records) ∈ l →
        ∃ os, processTag resolve tag records = .ok os := by
  intro l
  induction l with
  | nil =>
    intro outs _ tag records hmem
    cases hmem
  | cons p rest ih =>
    intro outs h tag records hmem
    obtain ⟨ptag, precs⟩ := p
    rw [processInitialState_cons] at h
    cases hpt : processTag resolve ptag precs with
    | error e => rw [hpt, exceptBind_error] at h; simp at h
    | ok os0 =>
      rw [hpt, exceptBind_ok] at h
      cases hrest : processInitialState resolve rest with
      | error e => rw [hrest, exceptBind_error] at h; simp at h
      | ok more =>
        rcases List.mem_cons.mp hmem with heq | hmem'
        · injection heq with he1 he2
          subst he1; subst he2
          exact ⟨os0, hpt⟩
        · exact ih hrest hmem'

theorem processInitialState_error_of_mem {resolve : String → Except Err Addr}
    {tag : String} {records : List RawRecord} {e : Err}
    (herr : processTag resolve tag records = .error e) :
    ∀ {l : List (String × List RawRecord)}, (tag, records) ∈ l →
      ∃ e', processInitialState resolve l = .error e' := by
  intro l
  induction l with
  | nil => intro hmem; cases hmem
  | cons p rest ih =>
    intro hmem
    obtain ⟨ptag, precs⟩ := p
    cases hpt : processTag resolve ptag precs with
    | error e0 => exact ⟨e0, by rw [processInitialState_cons, hpt, exceptBind_error]⟩
    | ok os0 =>
      rcases List.mem_cons.mp hmem with heq | hmem'
      · injection heq with he1 he2
        subst he1; subst he2
        rw [hpt] at herr
        simp at herr
      · obtain ⟨e', he'⟩ := ih hmem'
        exact ⟨e', by
          rw [processInitialState_cons, hpt, exceptBind_ok, he', exceptBind_error]⟩

theorem processInitialState_forall₂ {resolve : String → Except Err Addr}
    {l m : List (String × List RawRecord)} (hf : List.Forall₂ TagEquiv l m) :
    ∀ {outs : List Output}, processInitialState resolve l = .ok outs →
      ∃ outs', processInitialState resolve m = .ok outs' ∧ List.Perm outs outs' := by
  induction hf with
  | nil =>
    intro outs h
    exact ⟨outs, h, List.Perm.refl _⟩
  | @cons p q l' m' hpq hf ih =>
    intro outs h
    obtain ⟨ptag, precs⟩ := p
    obtain ⟨qtag, qrecs⟩ := q
    obtain ⟨htag, hrec⟩ := hpq
    rw [processInitialState_cons] at h
    cases hpt : processTag resolve ptag precs with
    | error e => rw [hpt, exceptBind_error] at h; simp at h
    | ok os0 =>
      rw [hpt, exceptBind_ok] at h
      cases hrest : processInitialState resolve l' with
      | error e => rw [hrest, exceptBind_error] at h; simp at h
      | ok more =>
        rw [hrest, exceptBind_ok, exceptPure_eq] at h
        obtain rfl : os0 ++ more = outs := by simpa using h
        obtain ⟨os0', hq, hperm0⟩ := processTag_perm hrec hpt
        obtain ⟨more', hm', hpermm⟩ := ih hrest
        refine ⟨os0' ++ more', ?_, List.Perm.append hperm0 hpermm⟩
        have htag' : qtag = ptag := by simpa using htag.symm
        subst htag'
        rw [processInitialState_cons, hq, exceptBind_ok, hm', exceptBind_ok, exceptPure_eq]

theorem processInitialState_perm {resolve : String → Except Err Addr}
    {l l' : List (String × List RawRecord)} (hp : List.Perm l l') :
    ∀ {outs : List Output}, processInitialState resolve l = .ok outs →
      ∃ outs', processInitialState resolve l' = .ok outs' ∧ List.Perm outs outs' := by
  induction hp with
  | nil =>
    intro outs h
    exact ⟨outs, h, List.Perm.refl _⟩
  | @cons p l₁ l₂ hp ih =>
    intro outs h
    obtain ⟨ptag, precs⟩ := p
    rw [processInitialState_cons] at h
    cases hpt : processTag resolve ptag precs with
    | error e => rw [hpt, exceptBind_error] at h; simp at h
    | ok os0 =>
      rw [hpt, exceptBind_ok] at h
      cases hrest : processInitialState resolve l₁ with
      | error e => rw [hrest, exceptBind_error] at h; simp at h
      | ok more =>
        rw [hrest, exceptBind_ok, exceptPure_eq] at h
        obtain rfl : os0 ++ more = outs := by simpa using h
        obtain ⟨more', hm', hperm⟩ := ih hrest
        exact ⟨os0 ++ more', by
          rw [processInitialState_cons, hpt, exceptBind_ok, hm', exceptBind_ok, exceptPure_eq],
          List.Perm.append_left os0 hperm⟩
  | swap x y l₀ =>
    intro outs h
    obtain ⟨xtag, xrecs⟩ := x
    obtain ⟨ytag, yrecs⟩ := y
    rw [processInitialState_cons] at h
    cases hyt : processTag resolve ytag yrecs with
    | error e => rw [hyt, exceptBind_error] at h; simp at h
    | ok osy =>
      rw [hyt, exceptBind_ok] at h
      rw [processInitialState_cons] at h
      cases hxt : processTag resolve xtag xrecs with
      | error e => rw [hxt, exceptBind_error, exceptBind_error] at h; simp at h
      | ok osx =>
        rw [hxt, exceptBind_ok] at h
        cases hrest : processInitialState resolve l₀ with
        | error e => rw [hrest, exceptBind_error, exceptBind_error] at h; simp at h
        | ok more =>
          rw [hrest, exceptBind_ok, exceptPure_eq, exceptBind_ok, exceptPure_eq] at h
          obtain rfl : osy ++ (osx ++ more) = outs := by simpa using h
          refine ⟨osx ++ (osy ++ more), ?_, perm_append_swap osy osx more⟩
          rw [processInitialState_cons, hxt, exceptBind_ok, processInitialState_cons, hyt,
            exceptBind_ok, hrest, exceptBind_ok, exceptPure_eq, exceptBind_ok, exceptPure_eq]
  | trans hp₁ hp₂ ih₁ ih₂ =>
    intro outs h
    obtain ⟨o₁, h₁, hperm₁⟩ := ih₁ h
    obtain ⟨o₂, h₂, hperm₂⟩ := ih₂ h₁
    exact ⟨o₂, h₂, hperm₁.trans hperm₂⟩

/-! ### Facts about `buildAsset` and `buildTxs` -/

theorem sortStates_singleton (s : InitialState) : sortStates [s] = [s] := rfl

theorem buildAsset_def (resolve : String → Except Err Addr) (encoding networkID : Nat)
    (aliasName : String) (d : AssetDefinition) :
    buildAsset resolve encoding networkID aliasName d =
      decodeFmt encoding d.Memo >>= fun assetMemo =>
        if d.InitialState.length > 0 then
          processInitialState resolve d.InitialState >>= fun outs =>
            pure { baseAsset networkID aliasName d assetMemo with
                   States := sortStates [{ FxID := 0, Outs := sortOuts outs }] }
        else pure (baseAsset networkID aliasName d assetMemo) := rfl

theorem buildAsset_memo_error {resolve : String → Except Err Addr}
    {encoding networkID : Nat} {aliasName : String} {d : AssetDefinition} {e : Err}
    (h : decodeFmt encoding d.Memo = .error e) :
    buildAsset resolve encoding networkID aliasName d = .error e := by
  rw [buildAsset_def, h, exceptBind_error]

theorem buildAsset_nil {resolve : String → Except Err Addr}
    {encoding networkID : Nat} {aliasName : String} {d : AssetDefinition} {m : List Nat}
    (hm : decodeFmt encoding d.Memo = .ok m) (hnil : d.InitialState = []) :
    buildAsset resolve encoding networkID aliasName d =
      .ok (baseAsset networkID aliasName d m) := by
  rw [buildAsset_def, hm, exceptBind_ok, if_neg (by simp [hnil]), exceptPure_eq]

theorem buildAsset_some {resolve : String → Except Err Addr}
    {encoding networkID : Nat} {aliasName : String} {d : AssetDefinition}
    {m : List Nat} {outs : List Output}
    (hm : decodeFmt encoding d.Memo = .ok m) (hne : d.InitialState ≠ [])
    (houts : processInitialState resolve d.InitialState = .ok outs) :
    buildAsset resolve encoding networkID aliasName d =
      .ok { baseAsset networkID aliasName d m with
            States := [{ FxID := 0, Outs := sortOuts outs }] } := by
  have hlen : d.InitialState.length > 0 := List.length_pos.mpr hne
  rw [buildAsset_def, hm, exceptBind_ok, if_pos hlen, houts, exceptBind_ok,
    sortStates_singleton, exceptPure_eq]

theorem buildAsset_state_error {resolve : String → Except Err Addr}
    {encoding networkID : Nat} {aliasName : String} {d : AssetDefinition}
    {m : List Nat} {e : Err}
    (hm : decodeFmt encoding d.Memo = .ok m) (hne : d.InitialState ≠ [])
    (herr : processInitialState resolve d.InitialState = .error e) :
    buildAsset resolve encoding networkID aliasName d = .error e := by
  have hlen : d.InitialState.length > 0 := List.length_pos.mpr hne
  rw [buildAsset_def, hm, exceptBind_ok, if_pos hlen, herr, exceptBind_error]

theorem buildAsset_ok_inv {resolve : String → Except Err Addr}
    {encoding networkID : Nat} {aliasName : String} {d : AssetDefinition} {a : GenesisAsset}
    (h : buildAsset resolve encoding networkID aliasName d = .ok a) :
    ∃ m, decodeFmt encoding d.Memo = .ok m ∧
      ((d.InitialState = [] ∧ a = baseAsset networkID aliasName d m) ∨
        (d.InitialState ≠ [] ∧ ∃ outs,
          processInitialState resolve d.InitialState = .ok outs ∧
          a = { baseAsset networkID aliasName d m with
                States := [{ FxID := 0, Outs := sortOuts outs }] })) := by
  rw [buildAsset_def] at h
  cases hm : decodeFmt encoding d.Memo with
  | error e => rw [hm, exceptBind_error] at h; simp at h
  | ok m =>
    rw [hm, exceptBind_ok] at h
    by_cases hnil : d.InitialState = []
    · rw [if_neg (by simp [hnil]), exceptPure_eq] at h
      exact ⟨m, rfl, .inl ⟨hnil, (Except.ok.inj h).symm⟩⟩
    · have hlen : d.InitialState.length > 0 := List.length_pos.mpr hnil
      rw [if_pos hlen] at h
      cases houts : processInitialState resolve d.InitialState with
      | error e => rw [houts, exceptBind_error] at h; simp at h
      | ok outs =>
        rw [houts, exceptBind_ok, sortStates_singleton, exceptPure_eq] at h
        exact ⟨m, rfl, .inr ⟨hnil, outs, rfl, (Except.ok.inj h).symm⟩⟩

theorem initEquiv_length {l l' : List (String × List RawRecord)}
    (h : InitEquiv l l') : l.length = l'.length := by
  obtain ⟨m, hf, hp⟩ := h
  rw [List.Forall₂.length_eq hf, hp.length_eq]

theorem buildAsset_defEquiv {resolve : String → Except Err Addr}
    {encoding networkID : Nat} {aliasName : String} {d d' : AssetDefinition}
    (hd : DefEquiv d d') {a : GenesisAsset}
    (h : buildAsset resolve encoding networkID aliasName d = .ok a) :
    buildAsset resolve encoding networkID aliasName d' = .ok a := by
  obtain ⟨hname, hsym, hden, hmemo, hinit⟩ := hd
  have hbase : ∀ m, baseAsset networkID aliasName d' m = baseAsset networkID aliasName d m := by
    intro m
    simp [baseAsset, hname, hsym, hden]
  obtain ⟨m, hm, hcase⟩ := buildAsset_ok_inv h
  have hm' : decodeFmt encoding d'.Memo = .ok m := by rw [← hmemo]; exact hm
  rcases hcase with ⟨hnil, rfl⟩ | ⟨hne, outs, houts, rfl⟩
  · have hnil' : d'.InitialState = [] := by
      have hl := initEquiv_length hinit
      rw [hnil] at hl
      exact List.length_eq_zero.mp hl.symm
    rw [buildAsset_nil hm' hnil', hbase]
  · obtain ⟨mid, hf, hp⟩ := hinit
    obtain ⟨outs₁, hmid, hperm₁⟩ := processInitialState_forall₂ hf houts
    obtain ⟨outs₂, hl', hperm₂⟩ := processInitialState_perm hp hmid
    have hne' : d'.InitialState ≠ [] := by
      intro hc
      have hl := initEquiv_length ⟨mid, hf, hp⟩
      rw [hc] at hl
      simp only [List.length_nil] at hl
      exact hne (List.length_eq_zero.mp hl)
    have hsort : sortOuts outs₂ = sortOuts outs :=
      (sortOuts_eq_of_perm (hperm₁.trans hperm₂)).symm
    rw [buildAsset_some hm' hne' hl', hbase, hsort]

theorem buildTxs_cons (resolve : String → Except Err Addr) (encoding networkID : Nat)
    (aliasName : String) (d : AssetDefinition) (rest : List (String × AssetDefinition)) :
    buildTxs resolve encoding networkID ((aliasName, d) :: rest) =
      buildAsset resolve encoding networkID aliasName d >>= fun a =>
        buildTxs resolve encoding networkID rest >>= fun more => pure (a :: more) := rfl

theorem buildTxs_eq_mapE (resolve : String → Except Err Addr) (encoding networkID : Nat) :
    ∀ l : List (String × AssetDefinition),
      buildTxs resolve encoding networkID l =
        mapE (fun p => buildAsset resolve encoding networkID p.1 p.2) l := by
  intro l
  induction l with
  | nil => rfl
  | cons p rest ih =>
    obtain ⟨aliasName, d⟩ := p
    rw [buildTxs_cons, mapE_cons, ih]

theorem buildTxs_forall₂ {resolve : String → Except Err Addr} {encoding networkID : Nat}
    {l m : List (String × AssetDefinition)} (hf : List.Forall₂ EntryEquiv l m) :
    ∀ {txs : List GenesisAsset}, buildTxs resolve encoding networkID l = .ok txs →
      buildTxs resolve encoding networkID m = .ok txs := by
  induction hf with
  | nil =>
    intro txs h
    exact h
  | @cons p q l' m' hpq hf ih =>
    intro txs h
    obtain ⟨pAlias, pd⟩ := p
    obtain ⟨qAlias, qd⟩ := q
    obtain ⟨halias, hdef⟩ := hpq
    have halias' : pAlias = qAlias := by simpa using halias
    subst halias'
    rw [buildTxs_cons] at h
    cases ha : buildAsset resolve encoding networkID pAlias pd with
    | error e => rw [ha, exceptBind_error] at h; simp at h
    | ok a =>
      rw [ha, exceptBind_ok] at h
      cases hrest : buildTxs resolve encoding networkID l' with
      | error e => rw [hrest, exceptBind_error] at h; simp at h
      | ok more =>
        rw [hrest, exceptBind_ok, exceptPure_eq] at h
        obtain rfl : a :: more = txs := by simpa using h
        rw [buildTxs_cons, buildAsset_defEquiv hdef ha, exceptBind_ok, ih hrest,
          exceptBind_ok, exceptPure_eq]

theorem buildTxs_perm {resolve : String → Except Err Addr} {encoding networkID : Nat}
    {l l' : List (String × AssetDefinition)} (hp : List.Perm l l')
    {txs : List GenesisAsset} (h : buildTxs resolve encoding networkID l = .ok txs) :
    ∃ txs', buildTxs resolve encoding networkID l' = .ok txs' ∧ List.Perm txs txs' := by
  rw [buildTxs_eq_mapE] at h ⊢
  exact mapE_perm hp h

theorem forall₂_mem_left {α β : Type} {R : α → β → Prop} :
    ∀ {l : List α} {m : List β}, List.Forall₂ R l m → ∀ {a : α}, a ∈ l →
      ∃ b, b ∈ m ∧ R a b := by
  intro l m hf
  induction hf with
  | nil =>
    intro a ha
    cases ha
  | cons h₁ h₂ ih =>
    intro a ha
    rcases List.mem_cons.mp ha with rfl | ha'
    · exact ⟨_, List.mem_cons_self _ _, h₁⟩
    · obtain ⟨b, hb, hR⟩ := ih ha'
      exact ⟨b, List.mem_cons_of_mem _ hb, hR⟩

theorem buildTxs_ok_mem {resolve : String → Except Err Addr} {encoding networkID : Nat}
    {l : List (String × AssetDefinition)} {txs : List GenesisAsset}
    (h : buildTxs resolve encoding networkID l = .ok txs)
    {aliasName : String} {d : AssetDefinition} (hmem : (aliasName, d) ∈ l) :
    ∃ a, a ∈ txs ∧ buildAsset resolve encoding networkID aliasName d = .ok a := by
  rw [buildTxs_eq_mapE] at h
  obtain ⟨a, ha, hR⟩ := forall₂_mem_left (mapE_ok_iff.mp h) hmem
  exact ⟨a, ha, hR⟩

theorem buildTxs_error_of_mem {resolve : String → Except Err Addr} {encoding networkID : Nat}
    {l : List (String × AssetDefinition)} {aliasName : String} {d : AssetDefinition} {e : Err}
    (hmem : (aliasName, d) ∈ l)
    (herr : buildAsset resolve encoding networkID aliasName d = .error e) :
    ∃ e', buildTxs resolve encoding networkID l = .error e' := by
  rw [buildTxs_eq_mapE]
  exact mapE_error_of_mem hmem herr

/-! ### Facts about `BuildGenesis` itself -/

theorem BuildGenesis_ok_intro {resolve : String → Except Err Addr} {args : BuildGenesisArgs}
    {txs : List GenesisAsset} {t : Text}
    (htxs : buildTxs resolve args.Encoding args.NetworkID args.GenesisData = .ok txs)
    (henc : encodeFmt args.Encoding (marshalGenesis { Txs := sortAssets txs }) = .ok t)
    (reply : BuildGenesisReply) :
    BuildGenesis resolve args reply =
      (.ok (), { Bytes := some t, Encoding := some args.Encoding }) := by
  simp only [BuildGenesis, htxs, henc]

theorem BuildGenesis_txs_error {resolve : String → Except Err Addr} {args : BuildGenesisArgs}
    {e : Err} (h : buildTxs resolve args.Encoding args.NetworkID args.GenesisData = .error e)
    (reply : BuildGenesisReply) :
    BuildGenesis resolve args reply = (.error e, reply) := by
  simp only [BuildGenesis, h]

theorem BuildGenesis_ok_inv {resolve : String → Except Err Addr} {args : BuildGenesisArgs}
    {reply r : BuildGenesisReply} {u : Unit}
    (h : BuildGenesis resolve args reply = (.ok u, r)) :
    ∃ txs t, buildTxs resolve args.Encoding args.NetworkID args.GenesisData = .ok txs ∧
      encodeFmt args.Encoding (marshalGenesis { Txs := sortAssets txs }) = .ok t ∧
      r = { Bytes := some t, Encoding := some args.Encoding } := by
  cases htxs : buildTxs resolve args.Encoding args.NetworkID args.GenesisData with
  | error e => rw [BuildGenesis_txs_error htxs] at h; simp at h
  | ok txs =>
    cases henc : encodeFmt args.Encoding (marshalGenesis { Txs := sortAssets txs }) with
    | error e =>
      simp only [BuildGenesis, htxs, henc] at h
      simp at h
    | ok t =>
      rw [BuildGenesis_ok_intro htxs henc] at h
      have hr : ({ Bytes := some t, Encoding := some args.Encoding } : BuildGenesisReply) = r :=
        congrArg Prod.snd h
      exact ⟨txs, t, rfl, henc, hr.symm⟩

theorem BuildGenesis_error_inv {resolve : String → Except Err Addr} {args : BuildGenesisArgs}
    {reply r : BuildGenesisReply} {e : Err}
    (h : BuildGenesis resolve args reply = (.error e, r)) :
    r = reply ∨ r = { reply with Bytes := none } := by
  cases htxs : buildTxs resolve args.Encoding args.NetworkID args.GenesisData with
  | error e0 =>
    rw [BuildGenesis_txs_error htxs] at h
    exact .inl (congrArg Prod.snd h).symm
  | ok txs =>
    cases henc : encodeFmt args.Encoding (marshalGenesis { Txs := sortAssets txs }) with
    | error e0 =>
      simp only [BuildGenesis, htxs, henc] at h
      exact .inr (congrArg Prod.snd h).symm
    | ok t =>
      rw [BuildGenesis_ok_intro htxs henc] at h
      simp at h

theorem fixedCapOut_def (resolve : String → Except Err Addr) (r : RawRecord) :
    fixedCapOut resolve r =
      asHolder r >>= fun holder => resolve holder.Address >>= fun addr =>
        pure (Output.TransferOutput (holder.Amount % 2 ^ 64) 1 [addr]) := rfl

theorem variableCapOut_def (resolve : String → Except Err Addr) (r : RawRecord) :
    variableCapOut resolve r =
      asOwners r >>= fun owners => mapE resolve owners.Minters >>= fun addrs =>
        pure (Output.MintOutput 1 (sortAddrs addrs)) := rfl

theorem encodeFmt_ok {e : Nat} (he : e ≤ 1) (b : List Nat) :
    encodeFmt e b = .ok (e, b) := by
  rw [encodeFmt, if_pos he]

theorem mapE_ok_of_forall {α β : Type} {f : α → Except Err β} :
    ∀ {l : List α}, (∀ a ∈ l, ∃ b, f a = .ok b) → ∃ bs, mapE f l = .ok bs := by
  intro l
  induction l with
  | nil =>
    intro _
    exact ⟨[], rfl⟩
  | cons x xs ih =>
    intro h
    obtain ⟨b, hb⟩ := h x (List.mem_cons_self x xs)
    obtain ⟨bs, hbs⟩ := ih fun a ha => h a (List.mem_cons_of_mem x ha)
    exact ⟨b :: bs, by rw [mapE_cons, hb, exceptBind_ok, hbs, exceptBind_ok, exceptPure_eq]⟩

theorem buildAsset_error_of_state_error {resolve : String → Except Err Addr}
    {encoding networkID : Nat} {aliasName : String} {d : AssetDefinition}
    {tag : String} {records : List RawRecord} {e : Err}
    (hmem : (tag, records) ∈ d.InitialState)
    (herr : processTag resolve tag records = .error e) :
    ∃ e', buildAsset resolve encoding networkID aliasName d = .error e' := by
  cases hm : decodeFmt encoding d.Memo with
  | error e0 => exact ⟨e0, buildAsset_memo_error hm⟩
  | ok m =>
    have hne : d.InitialState ≠ [] := by
      intro hc
      rw [hc] at hmem
      cases hmem
    obtain ⟨e1, h1⟩ := processInitialState_error_of_mem herr hmem
    exact ⟨e1, buildAsset_state_error hm hne h1⟩

theorem BuildGenesis_error_of_asset_error {resolve : String → Except Err Addr}
    {args : BuildGenesisArgs} {aliasName : String} {d : AssetDefinition} {e : Err}
    (hmem : (aliasName, d) ∈ args.GenesisData)
    (herr : buildAsset resolve args.Encoding args.NetworkID aliasName d = .error e)
    (reply : BuildGenesisReply) :
    ∃ e', BuildGenesis resolve args reply = (.error e', reply) := by
  obtain ⟨e', h⟩ := buildTxs_error_of_mem hmem herr
  exact ⟨e', BuildGenesis_txs_error h reply⟩

/-! ### The claims -/

/-- C1: for every well-formed input the reply bytes of `BuildGenesis` are a
pure function of the logical content of the request: since the embedding is
a function, two invocations on the same input agree definitionally, and this
theorem shows that permuting the iteration order of the `genesisData`
mapping, of the `initialState` mapping, or of any `initialState` record list
(`ArgsEquiv`) leaves the successful reply — bytes and all — unchanged,
because outputs, states and transactions are canonically sorted before
encoding. -/
theorem BuildGenesis_deterministic_order_independent
    {resolve : String → Except Err Addr} {args args' : BuildGenesisArgs}
    {r : BuildGenesisReply} (heq : ArgsEquiv args args')
    (h : BuildGenesis resolve args zeroReply = (.ok (), r)) :
    BuildGenesis resolve args' zeroReply = (.ok (), r) := by
  obtain ⟨hnid, henc, mid, hf, hp⟩ := heq
  obtain ⟨txs, t, htxs, hfmt, rfl⟩ := BuildGenesis_ok_inv h
  have htxs₁ : buildTxs resolve args.Encoding args.NetworkID mid = .ok txs :=
    buildTxs_forall₂ hf htxs
  obtain ⟨txs', htxs₂, hperm⟩ := buildTxs_perm hp htxs₁
  have htxs' : buildTxs resolve args'.Encoding args'.NetworkID args'.GenesisData = .ok txs' := by
    rw [← hnid, ← henc]
    exact htxs₂
  have hsort : sortAssets txs' = sortAssets txs := (sortAssets_eq_of_perm hperm).symm
  have hfmt' : encodeFmt args'.Encoding (marshalGenesis { Txs := sortAssets txs' }) = .ok t := by
    rw [← henc, hsort]
    exact hfmt
  rw [BuildGenesis_ok_intro htxs' hfmt', henc]

theorem c1args_equiv : ArgsEquiv c1args c1args' := by
  refine ⟨rfl, rfl, [("alpha", c1d1'), ("beta", c1d2)], ?_, ?_⟩
  · refine List.Forall₂.cons ?_ (List.Forall₂.cons ?_ List.Forall₂.nil)
    · exact ⟨rfl, rfl, rfl, rfl, rfl,
        [("fixedCap", [sampleHolderB, sampleHolderA])],
        List.Forall₂.cons ⟨rfl, List.Perm.swap sampleHolderB sampleHolderA []⟩
          List.Forall₂.nil,
        List.Perm.refl _⟩
    · exact ⟨rfl, rfl, rfl, rfl, rfl, [], List.Forall₂.nil, List.Perm.nil⟩
  · exact List.Perm.swap ("beta", c1d2) ("alpha", c1d1') []

/-- Witness for C1: a two-asset request whose `genesisData` order and whose
fixedCap record list order are both permuted produces the byte-identical
reply. -/
theorem BuildGenesis_deterministic_order_independent_witness :
    BuildGenesis specResolve c1args' zeroReply =
      (.ok (), (BuildGenesis specResolve c1args zeroReply).2) :=
  BuildGenesis_deterministic_order_independent c1args_equiv (by rfl)

/-- C2: every record under the "variableCap" tag yields exactly one
`MintOutput` with threshold 1 whose owner address list is the record's
resolved minter addresses sorted ascending by binary value (a permutation of
the resolved list, sorted under `addrLe`). -/
theorem variableCap_minters_sorted {resolve : String → Except Err Addr}
    {records : List RawRecord} {outs : List Output}
    (h : processTag resolve "variableCap" records = .ok outs) :
    List.Forall₂ (fun r out => ∃ o addrs, asOwners r = .ok o ∧
      mapE resolve o.Minters = .ok addrs ∧
      out = Output.MintOutput 1 (sortAddrs addrs) ∧
      List.Perm (sortAddrs addrs) addrs ∧
      List.Sorted addrLe (sortAddrs addrs)) records outs := by
  rw [processTag_variableCap] at h
  refine List.Forall₂.imp ?_ (mapE_ok_iff.mp h)
  intro r out hro
  rw [variableCapOut_def] at hro
  cases ho : asOwners r with
  | error e => rw [ho, exceptBind_error] at hro; simp at hro
  | ok o =>
    rw [ho, exceptBind_ok] at hro
    cases hm : mapE resolve o.Minters with
    | error e => rw [hm, exceptBind_error] at hro; simp at hro
    | ok addrs =>
      rw [hm, exceptBind_ok, exceptPure_eq] at hro
      obtain rfl : Output.MintOutput 1 (sortAddrs addrs) = out := Except.ok.inj hro
      exact ⟨o, addrs, rfl, hm, rfl, sortAddrs_perm addrs, sortAddrs_sorted addrs⟩

/-- Witness for C2: minters given as [B, A, C] (binary order A < B < C)
yield the single MintOutput with address list [A, B, C]. -/
theorem variableCap_minters_sorted_witness :
    List.Forall₂ (fun r out => ∃ o addrs, asOwners r = .ok o ∧
      mapE specResolve o.Minters = .ok addrs ∧
      out = Output.MintOutput 1 (sortAddrs addrs) ∧
      List.Perm (sortAddrs addrs) addrs ∧
      List.Sorted addrLe (sortAddrs addrs)) c2records
      [Output.MintOutput 1 [resolvedA, resolvedB, resolvedC]] :=
  variableCap_minters_sorted (by rfl)

/-- C3: every record under the "fixedCap" tag yields exactly one
`TransferOutput` carrying the record's amount (as a 64-bit value), threshold
1 and an owner list of exactly the single resolved address; a record that
cannot be reinterpreted into the holder shape, or whose address fails
resolution, makes the whole `BuildGenesis` call return an error. -/
theorem fixedCap_records_processed {resolve : String → Except Err Addr}
    {args : BuildGenesisArgs} {aliasName : String} {d : AssetDefinition}
    {records : List RawRecord}
    (hmemA : (aliasName, d) ∈ args.GenesisData)
    (hmemT : ("fixedCap", records) ∈ d.InitialState) :
    (∀ outs, processTag resolve "fixedCap" records = .ok outs →
      List.Forall₂ (fun r out => ∃ holder addr, asHolder r = .ok holder ∧
        resolve holder.Address = .ok addr ∧
        out = Output.TransferOutput (holder.Amount % 2 ^ 64) 1 [addr]) records outs) ∧
    (∀ r, r ∈ records →
      ((∃ e, asHolder r = .error e) ∨
        (∃ holder e, asHolder r = .ok holder ∧ resolve holder.Address = .error e)) →
      ∀ reply, ∃ e', BuildGenesis resolve args reply = (.error e', reply)) := by
  constructor
  · intro outs h
    rw [processTag_fixedCap] at h
    refine List.Forall₂.imp ?_ (mapE_ok_iff.mp h)
    intro r out hro
    rw [fixedCapOut_def] at hro
    cases hh : asHolder r with
    | error e => rw [hh, exceptBind_error] at hro; simp at hro
    | ok holder =>
      rw [hh, exceptBind_ok] at hro
      cases ha : resolve holder.Address with
      | error e => rw [ha, exceptBind_error] at hro; simp at hro
      | ok addr =>
        rw [ha, exceptBind_ok, exceptPure_eq] at hro
        obtain rfl : Output.TransferOutput (holder.Amount % 2 ^ 64) 1 [addr] = out :=
          Except.ok.inj hro
        exact ⟨holder, addr, rfl, ha, rfl⟩
  · intro r hr hbad reply
    obtain ⟨e, he⟩ : ∃ e, fixedCapOut resolve r = .error e := by
      rcases hbad with ⟨e, hh⟩ | ⟨holder, e, hh, ha⟩
      · exact ⟨e, by rw [fixedCapOut_def, hh, exceptBind_error]⟩
      · exact ⟨e, by rw [fixedCapOut_def, hh, exceptBind_ok, ha, exceptBind_error]⟩
    obtain ⟨e', hpt⟩ : ∃ e', processTag resolve "fixedCap" records = .error e' := by
      rw [processTag_fixedCap]
      exact mapE_error_of_mem hr he
    obtain ⟨e'', hba⟩ := buildAsset_error_of_state_error hmemT hpt
    exact BuildGenesis_error_of_asset_error hmemA hba reply

/-- Witness for C3: the two fixedCap holders of the sample request turn into
exactly their two transfer outputs, and a request containing a malformed
fixedCap record fails the whole build. -/
theorem fixedCap_records_processed_witness :
    (List.Forall₂ (fun r out => ∃ holder addr, asHolder r = .ok holder ∧
        specResolve holder.Address = .ok addr ∧
        out = Output.TransferOutput (holder.Amount % 2 ^ 64) 1 [addr])
      [sampleHolderA, sampleHolderB]
      [Output.TransferOutput (5 % 2 ^ 64) 1 [resolvedA],
        Output.TransferOutput (6 % 2 ^ 64) 1 [resolvedB]]) ∧
    (∃ e', BuildGenesis specResolve c3args zeroReply = (.error e', zeroReply)) :=
  ⟨(@fixedCap_records_processed specResolve c1args "alpha" c1d1
      [sampleHolderA, sampleHolderB] (List.mem_cons_self _ _) (List.mem_cons_self _ _)).1
      _ (by rfl),
    (@fixedCap_records_processed specResolve c3args "gamma" c3d
      [RawRecord.malformed "oops"] (List.mem_cons_self _ _) (List.mem_cons_self _ _)).2
      (RawRecord.malformed "oops") (List.mem_cons_self _ _)
      (Or.inl ⟨Err.malformedRecord "oops", rfl⟩) zeroReply⟩

/-- C4: an AssetDefinition with an empty initialState mapping yields a
GenesisAssetTx with zero InitialStateGroups and the overall Genesis still
encodes successfully; otherwise all outputs from all initialState entries
are accumulated into exactly one InitialStateGroup whose FxID is 0. -/
theorem initialState_grouping {resolve : String → Except Err Addr}
    {encoding networkID : Nat} {aliasName : String} {d : AssetDefinition} :
    (d.InitialState = [] → ∀ m, decodeFmt encoding d.Memo = .ok m →
      ∃ a, buildAsset resolve encoding networkID aliasName d = .ok a ∧ a.States = []) ∧
    (∀ a, buildAsset resolve encoding networkID aliasName d = .ok a →
      d.InitialState ≠ [] →
      ∃ outs, processInitialState resolve d.InitialState = .ok outs ∧
        a.States = [{ FxID := 0, Outs := sortOuts outs }]) ∧
    (∀ args : BuildGenesisArgs, args.Encoding ≤ 1 →
      (∀ p, p ∈ args.GenesisData → (p.2 : AssetDefinition).InitialState = [] ∧
        ∃ m, decodeFmt args.Encoding p.2.Memo = .ok m) →
      ∃ r, BuildGenesis resolve args zeroReply = (.ok (), r) ∧ r.Bytes ≠ none) := by
  refine ⟨?_, ?_, ?_⟩
  · intro hnil m hm
    exact ⟨baseAsset networkID aliasName d m, buildAsset_nil hm hnil, rfl⟩
  · intro a ha hne
    obtain ⟨m, hm, hcase⟩ := buildAsset_ok_inv ha
    rcases hcase with ⟨hnil, _⟩ | ⟨_, outs, houts, rfl⟩
    · exact absurd hnil hne
    · exact ⟨outs, houts, rfl⟩
  · intro args hEnc hAll
    obtain ⟨txs, htxs⟩ :
        ∃ txs, buildTxs resolve args.Encoding args.NetworkID args.GenesisData = .ok txs := by
      rw [buildTxs_eq_mapE]
      refine mapE_ok_of_forall ?_
      intro p hp
      obtain ⟨hnil, m, hm⟩ := hAll p hp
      exact ⟨baseAsset args.NetworkID p.1 p.2 m, buildAsset_nil hm hnil⟩
    refine ⟨_, BuildGenesis_ok_intro htxs (encodeFmt_ok hEnc _) zeroReply, ?_⟩
    simp

/-- Witness for C4: the empty-initialState sample asset builds with zero
state groups, the non-empty one builds with exactly one group of FxID 0, and
a whole request of empty-initialState assets encodes successfully. -/
theorem initialState_grouping_witness :
    (∃ a, buildAsset specResolve 0 5 "gold" c1d2 = .ok a ∧ a.States = []) ∧
    (∃ a outs, buildAsset specResolve 0 5 "one" c1d1 = .ok a ∧
      processInitialState specResolve c1d1.InitialState = .ok outs ∧
      a.States = [{ FxID := 0, Outs := sortOuts outs }]) ∧
    (∃ r, BuildGenesis specResolve c4args zeroReply = (.ok (), r) ∧ r.Bytes ≠ none) := by
  refine ⟨?_, ?_, ?_⟩
  · exact (@initialState_grouping specResolve 0 5 "gold" c1d2).1 rfl [] rfl
  · obtain ⟨outs, houts, hst⟩ :=
      (@initialState_grouping specResolve 0 5 "one" c1d1).2.1 _ (by rfl) (by decide)
    exact ⟨_, outs, by rfl, houts, hst⟩
  · refine (@initialState_grouping specResolve 0 5 "gold" c1d2).2.2 c4args (by decide) ?_
    intro p hp
    obtain rfl := List.mem_singleton.mp hp
    exact ⟨rfl, [], rfl⟩

/-- C5: an initialState entry whose tag is neither "fixedCap" nor
"variableCap" is rejected with the distinguished unknown-asset-type error,
and the whole build fails, delivering no output bytes (the reply stays
zero-valued). -/
theorem unknown_tag_rejected {resolve : String → Except Err Addr}
    {args : BuildGenesisArgs} {aliasName : String} {d : AssetDefinition}
    {tag : String} {records : List RawRecord}
    (hmemA : (aliasName, d) ∈ args.GenesisData)
    (hmemT : (tag, records) ∈ d.InitialState)
    (h1 : tag ≠ "fixedCap") (h2 : tag ≠ "variableCap") :
    processTag resolve tag records = .error .unknownAssetType ∧
    ∃ e, BuildGenesis resolve args zeroReply = (.error e, zeroReply) := by
  refine ⟨processTag_unknown h1 h2 records, ?_⟩
  obtain ⟨e', hba⟩ :=
    buildAsset_error_of_state_error hmemT (processTag_unknown h1 h2 records)
  exact BuildGenesis_error_of_asset_error hmemA hba zeroReply

/-- Witness for C5: the tag "unknown" is rejected and the sample request
carrying it fails with the reply left untouched. -/
theorem unknown_tag_rejected_witness :
    processTag specResolve "unknown" [] = .error .unknownAssetType ∧
    ∃ e, BuildGenesis specResolve c5args zeroReply = (.error e, zeroReply) :=
  @unknown_tag_rejected specResolve c5args "delta" c5d "unknown" []
    (List.mem_cons_self _ _) (List.mem_cons_self _ _) (by decide) (by decide)

/-- C6: a fixedCap holder whose address fails resolution aborts the whole
build: the record's processing returns exactly the resolver's error, the
overall call fails with the reply left untouched even when other assets are
present, and when the failing record is the only content of the request the
returned error is exactly the resolver's address-format error. -/
theorem bad_address_aborts {resolve : String → Except Err Addr}
    {args : BuildGenesisArgs} {aliasName : String} {d : AssetDefinition}
    {records : List RawRecord} {r : RawRecord} {holder : Holder} {e : Err}
    (hmemA : (aliasName, d) ∈ args.GenesisData)
    (hmemT : ("fixedCap", records) ∈ d.InitialState)
    (hr : r ∈ records) (hh : asHolder r = .ok holder)
    (hres : resolve holder.Address = .error e) :
    fixedCapOut resolve r = .error e ∧
    (∃ e', BuildGenesis resolve args zeroReply = (.error e', zeroReply)) ∧
    (args.GenesisData = [(aliasName, d)] → d.InitialState = [("fixedCap", records)] →
      records = [r] → (∃ m, decodeFmt args.Encoding d.Memo = .ok m) →
      BuildGenesis resolve args zeroReply = (.error e, zeroReply)) := by
  have hout : fixedCapOut resolve r = .error e := by
    rw [fixedCapOut_def, hh, exceptBind_ok, hres, exceptBind_error]
  refine ⟨hout, ?_, ?_⟩
  · obtain ⟨e', hpt⟩ : ∃ e', processTag resolve "fixedCap" records = .error e' := by
      rw [processTag_fixedCap]
      exact mapE_error_of_mem hr hout
    obtain ⟨e'', hba⟩ := buildAsset_error_of_state_error hmemT hpt
    exact BuildGenesis_error_of_asset_error hmemA hba zeroReply
  · rintro hgd hinit hrec ⟨m, hm⟩
    have hpt : processTag resolve "fixedCap" records = .error e := by
      rw [processTag_fixedCap, hrec, mapE_cons, hout, exceptBind_error]
    have hpis : processInitialState resolve d.InitialState = .error e := by
      rw [hinit, processInitialState_cons, hpt, exceptBind_error]
    have hba : buildAsset resolve args.Encoding args.NetworkID aliasName d = .error e :=
      buildAsset_state_error hm (by rw [hinit]; simp) hpis
    have htxs : buildTxs resolve args.Encoding args.NetworkID args.GenesisData = .error e := by
      rw [hgd, buildTxs_cons, hba, exceptBind_error]
    exact BuildGenesis_txs_error htxs zeroReply

/-- Witness for C6: the sample holder with the 3-byte address "xyz" fails
with exactly the address-format error and its request aborts whole. -/
theorem bad_address_aborts_witness :
    fixedCapOut specResolve sampleHolderBad = .error (.addressFormat "xyz") ∧
    (∃ e', BuildGenesis specResolve c6args zeroReply = (.error e', zeroReply)) ∧
    (c6args.GenesisData = [("epsilon", c6d)] →
      c6d.InitialState = [("fixedCap", [sampleHolderBad])] →
      [sampleHolderBad] = [sampleHolderBad] →
      (∃ m, decodeFmt c6args.Encoding c6d.Memo = .ok m) →
      BuildGenesis specResolve c6args zeroReply =
        (.error (.addressFormat "xyz"), zeroReply)) :=
  @bad_address_aborts specResolve c6args "epsilon" c6d [sampleHolderBad] sampleHolderBad
    { Address := addrBad, Amount := 7 } (Err.addressFormat "xyz")
    (List.mem_cons_self _ _) (List.mem_cons_self _ _) (List.mem_cons_self _ _) rfl rfl

/-- Counterexample to C7: a variableCap record with an empty minter list is
accepted and yields a MintOutput whose owner address list is empty, and the
whole build still succeeds — the code never enforces non-emptiness. -/
theorem mint_output_empty_addrs_cex :
    processTag specResolve "variableCap" [RawRecord.ownersRec { Minters := [] }] =
      .ok [Output.MintOutput 1 []] ∧
    (Output.MintOutput 1 []).addrs = [] ∧
    (BuildGenesis specResolve c7args zeroReply).1 = .ok () :=
  ⟨rfl, rfl, rfl⟩

/-- C7 amended: every TransferOutput produced by the fixedCap branch has
exactly one owner address, and a MintOutput produced by the variableCap
branch has exactly one owner address per minter of its record — so its
owner list is empty exactly when the record's minter list is empty. -/
theorem output_addr_counts {resolve : String → Except Err Addr}
    {records : List RawRecord} {outs : List Output} :
    (processTag resolve "fixedCap" records = .ok outs →
      List.Forall₂ (fun _ out => out.addrs.length = 1) records outs) ∧
    (processTag resolve "variableCap" records = .ok outs →
      List.Forall₂ (fun r out => ∃ o, asOwners r = .ok o ∧
        out.addrs.length = o.Minters.length) records outs) := by
  constructor
  · intro h
    rw [processTag_fixedCap] at h
    refine List.Forall₂.imp ?_ (mapE_ok_iff.mp h)
    intro r out hro
    rw [fixedCapOut_def] at hro
    cases hh : asHolder r with
    | error e => rw [hh, exceptBind_error] at hro; simp at hro
    | ok holder =>
      rw [hh, exceptBind_ok] at hro
      cases ha : resolve holder.Address with
      | error e => rw [ha, exceptBind_error] at hro; simp at hro
      | ok addr =>
        rw [ha, exceptBind_ok, exceptPure_eq] at hro
        obtain rfl := Except.ok.inj hro
        rfl
  · intro h
    rw [processTag_variableCap] at h
    refine List.Forall₂.imp ?_ (mapE_ok_iff.mp h)
    intro r out hro
    rw [variableCapOut_def] at hro
    cases ho : asOwners r with
    | error e => rw [ho, exceptBind_error] at hro; simp at hro
    | ok o =>
      rw [ho, exceptBind_ok] at hro
      cases hm : mapE resolve o.Minters with
      | error e => rw [hm, exceptBind_error] at hro; simp at hro
      | ok addrs =>
        rw [hm, exceptBind_ok, exceptPure_eq] at hro
        obtain rfl := Except.ok.inj hro
        refine ⟨o, rfl, ?_⟩
        have h1 : (sortAddrs addrs).length = addrs.length := (sortAddrs_perm addrs).length_eq
        have h2 : addrs.length = o.Minters.length :=
          (List.Forall₂.length_eq (mapE_ok_iff.mp hm)).symm
        simpa [Output.addrs] using h1.trans h2

/-- Witness for C7 (amended): the sample fixedCap outputs each carry one
address, and the empty-minters record yields a MintOutput with zero
addresses, matching its zero minters. -/
theorem output_addr_counts_witness :
    (List.Forall₂ (fun _ out => out.addrs.length = 1)
      [sampleHolderA, sampleHolderB]
      [Output.TransferOutput (5 % 2 ^ 64) 1 [resolvedA],
        Output.TransferOutput (6 % 2 ^ 64) 1 [resolvedB]]) ∧
    (List.Forall₂ (fun r out => ∃ o, asOwners r = .ok o ∧
        out.addrs.length = o.Minters.length)
      [RawRecord.ownersRec { Minters := [] }] [Output.MintOutput 1 []]) :=
  ⟨(@output_addr_counts specResolve [sampleHolderA, sampleHolderB]
      [Output.TransferOutput (5 % 2 ^ 64) 1 [resolvedA],
        Output.TransferOutput (6 % 2 ^ 64) 1 [resolvedB]]).1 (by rfl),
    (@output_addr_counts specResolve [RawRecord.ownersRec { Minters := [] }]
      [Output.MintOutput 1 []]).2 (by rfl)⟩

/-- C8: whenever BuildGenesis returns an error on the zero-valued reply, no
genesis payload is delivered: the reply's Bytes field stays unset and its
Encoding field stays unset — in particular it is never set to the request's
encoding on an error path. -/
theorem error_returns_no_payload {resolve : String → Except Err Addr}
    {args : BuildGenesisArgs} {e : Err} {r : BuildGenesisReply}
    (h : BuildGenesis resolve args zeroReply = (.error e, r)) :
    r.Bytes = none ∧ r.Encoding = none := by
  rcases BuildGenesis_error_inv h with rfl | rfl
  · exact ⟨rfl, rfl⟩
  · exact ⟨rfl, rfl⟩

/-- Witness for C8: the sample request whose memo cannot be decoded fails
and delivers neither bytes nor an encoding. -/
theorem error_returns_no_payload_witness :
    ((BuildGenesis specResolve c8args zeroReply).2).Bytes = none ∧
    ((BuildGenesis specResolve c8args zeroReply).2).Encoding = none :=
  @error_returns_no_payload specResolve c8args (Err.memoDecode "invalid encoding")
    (BuildGenesis specResolve c8args zeroReply).2 (by rfl)

/-- C9: the denomination stored in the resulting transaction equals the
supplied Denomination reduced modulo 256 (the byte conversion of line 65);
an oversized value is silently truncated, never rejected. -/
theorem denomination_truncated {resolve : String → Except Err Addr}
    {encoding networkID : Nat} {aliasName : String} {d : AssetDefinition}
    {a : GenesisAsset}
    (h : buildAsset resolve encoding networkID aliasName d = .ok a) :
    a.Denomination = d.Denomination % 256 := by
  obtain ⟨m, hm, hcase⟩ := buildAsset_ok_inv h
  rcases hcase with ⟨_, rfl⟩ | ⟨_, outs, _, rfl⟩ <;> rfl

/-- Witness for C9: denomination 300 is accepted and stored as 300 mod 256
= 44. -/
theorem denomination_truncated_witness :
    ∃ a, buildAsset specResolve 0 7 "nine" c9d = .ok a ∧ a.Denomination = 300 % 256 :=
  ⟨_, rfl, @denomination_truncated specResolve 0 7 "nine" c9d _ rfl⟩

/-- C10: each asset's Memo is decoded under the request's declared encoding
and the decoded bytes are embedded in that asset's transaction; a memo that
fails to decode makes the whole build abort with an error and an untouched
reply. -/
theorem memo_decoded_or_aborts {resolve : String → Except Err Addr}
    {args : BuildGenesisArgs} {aliasName : String} {d : AssetDefinition}
    (hmem : (aliasName, d) ∈ args.GenesisData) :
    (∀ a, buildAsset resolve args.Encoding args.NetworkID aliasName d = .ok a →
      decodeFmt args.Encoding d.Memo = .ok a.Memo) ∧
    (∀ e, decodeFmt args.Encoding d.Memo = .error e →
      ∀ reply, ∃ e', BuildGenesis resolve args reply = (.error e', reply)) := by
  constructor
  · intro a ha
    obtain ⟨m, hm, hcase⟩ := buildAsset_ok_inv ha
    rcases hcase with ⟨_, rfl⟩ | ⟨_, outs, _, rfl⟩ <;> exact hm
  · intro e he reply
    exact BuildGenesis_error_of_asset_error hmem (buildAsset_memo_error he) reply

/-- Witness for C10: the sample asset's memo bytes end up in its built
transaction, and the request whose memo is encoded under the wrong scheme
aborts whole. -/
theorem memo_decoded_or_aborts_witness :
    (∃ a, buildAsset specResolve c1args.Encoding c1args.NetworkID "alpha" c1d1 = .ok a ∧
      decodeFmt c1args.Encoding c1d1.Memo = .ok a.Memo) ∧
    (∃ e', BuildGenesis specResolve c10args zeroReply = (.error e', zeroReply)) :=
  ⟨⟨_, rfl, (@memo_decoded_or_aborts specResolve c1args "alpha" c1d1
      (List.mem_cons_self _ _)).1 _ rfl⟩,
    (@memo_decoded_or_aborts specResolve c10args "theta" c10d
      (List.mem_cons_self _ _)).2 (Err.memoDecode "invalid encoding") rfl zeroReply⟩

end AvmStatic
